import Mathlib

/-!
Verification development for the concurrency-control core of the STO
software transactional memory library: the `TLockVersion` (pessimistic)
and `TSwissVersion` (optimistic) version-word protocols of
`EagerVersions.hh`, and the contention manager of `ContentionManager.cc`.

Machine words (`TransactionTid::type`, a `uint64_t`) are embedded as `Nat`
with explicit 64-bit masking where the C code relies on fixed width.
Atomic compare-and-swap loops are embedded one iteration at a time: each
loop body becomes a function of the word value read plus a `Bool` telling
whether the CAS succeeded, returning `none` when the body retries.
-/

namespace STO

/-! ## Version-word bit layout

`TLockVersion` and `TSwissVersion` take their bit constants from the
`TransactionTid` class, whose header is not part of this development.
The layout below is modelled from the spec, which partitions the word into
disjoint bit fields: a low owner/thread-id field (doubling as the
pessimistic reader-count field), a lock bit, an opacity-marker bit, a
dirty/commit-in-progress bit, and an optimistic-hint bit, with the
remaining high bits holding the sequence/version number. -/

/-- Modelled from the spec: low bit field of the word
(`TransactionTid::threadid_mask`), holding the owner thread id
(optimistic variant) or the reader count (pessimistic variant). -/
def threadid_mask : Nat := 0x1f

/-- Modelled from the spec: the writer lock bit (`TransactionTid::lock_bit`),
disjoint from the thread-id/reader-count field. -/
def lock_bit : Nat := 0x20

/-- Modelled from the spec: the opacity-marker bit
(`TransactionTid::nonopaque_bit`). -/
def nonopaque_bit : Nat := 0x40

/-- Modelled from the spec: the dirty/commit-in-progress bit
(`TransactionTid::dirty_bit`), used by the optimistic variant as its
commit-time read-lock bit. -/
def dirty_bit : Nat := 0x80

/-- Modelled from the spec: the optimistic-hint bit
(`TransactionTid::opt_bit`) of the adaptive pessimistic variant. -/
def opt_bit : Nat := 0x100

/-- All-ones 64-bit word: `TransactionTid::type` is a 64-bit unsigned
integer, so C bitwise complement is complement within this mask. -/
def WORD_MASK : Nat := 2 ^ 64 - 1

/-- Bitwise complement of a (64-bit) constant, the C `~m` on a `uint64_t`. -/
def compl64 (m : Nat) : Nat := WORD_MASK ^^^ m

/-! ## Contention manager (`ContentionManager.cc`)

The per-thread state lives in static arrays of 128 entries, indexed at
`4 * threadid` to pad out false sharing.  The state is embedded as total
maps from array index to value; the array-bounds question itself is
treated separately (claim C10) over `Int`, matching the C `int` index
arithmetic. -/

/-- Modelled from the spec: the sentinel meaning "no priority timestamp
assigned" (`MAX_TS` from the absent `ContentionManager.hh`); the largest
64-bit value, never minted by the global counter in any feasible run. -/
def MAX_TS : Nat := 2 ^ 64 - 1

/-- Modelled from the spec: the fixed write-set-size threshold
(`TS_THRESHOLD` from the absent header) at which a thread earns a
priority timestamp. -/
def TS_THRESHOLD : Nat := 10

/-- Modelled from the spec: the fixed cap (`SUCC_ABORTS_MAX` from the
absent header) at which a thread's abort count saturates. -/
def SUCC_ABORTS_MAX : Nat := 10

/-- Modelled from the spec: the fixed backoff multiplier
(`WAIT_CYCLES_MULTIPLICATOR` from the absent header) scaling the abort
count into a range of wait cycles. -/
def WAIT_CYCLES_MULTIPLICATOR : Nat := 8000

/-- Modelled from the spec: the libc `rand_r` pseudo-random generator,
which advances the caller-supplied seed in place and returns the new
pseudo-random value; embedded as a standard linear congruential step.
Only two facts about it reach any theorem: the draw is a function of the
given seed alone, and the updated seed is returned alongside it. -/
def rand_r (s : Nat) : Nat × Nat :=
  let s2 := (s * 1103515245 + 12345) % 2 ^ 31
  (s2, s2)

/-- Pointwise update of a per-thread array embedded as a map. -/
def upd (f : Nat → Nat) (i v : Nat) : Nat → Nat :=
  fun j => if j = i then v else f j

/-- The static fields of `ContentionManager`: the global timestamp counter
`ts` and the per-thread arrays (each indexed at `4 * threadid`). -/
structure CMState where
  ts : Nat
  aborted : Nat → Nat
  timestamp : Nat → Nat
  write_set_size : Nat → Nat
  abort_count : Nat → Nat
  seed : Nat → Nat

namespace ContentionManager

/-- `ContentionManager::on_write`: bump this thread's write-set size; if
the thread still has no priority timestamp and the size just reached the
threshold, mint a timestamp by fetch-and-add on the global counter. -/
def on_write (s : CMState) (threadid : Nat) : CMState :=
  let i := 4 * threadid
  let wss := s.write_set_size i + 1
  let s1 := { s with write_set_size := upd s.write_set_size i wss }
  if s1.timestamp i = MAX_TS ∧ wss = TS_THRESHOLD then
    { s1 with timestamp := upd s1.timestamp i s1.ts, ts := s1.ts + 1 }
  else
    s1

/-- `ContentionManager::start`: reset this thread's per-attempt fields;
the abort count is reset only when the transaction is not a restart. -/
def start (s : CMState) (threadid : Nat) (is_restarted : Bool) : CMState :=
  let i := 4 * threadid
  if is_restarted then
    { s with timestamp := upd s.timestamp i MAX_TS,
             aborted := upd s.aborted i 0,
             write_set_size := upd s.write_set_size i 0 }
  else
    { s with timestamp := upd s.timestamp i MAX_TS,
             aborted := upd s.aborted i 0,
             write_set_size := upd s.write_set_size i 0,
             abort_count := upd s.abort_count i 0 }

/-- `ContentionManager::on_rollback`: bump the abort count unless already
at the cap, then draw a wait duration from this thread's seed, bounded by
the (new) abort count times the multiplier.  Returns the new state and
the number of cycles handed to `wait_cycles`. -/
def on_rollback (s : CMState) (threadid : Nat) : CMState × Nat :=
  let i := 4 * threadid
  let ac := if s.abort_count i < SUCC_ABORTS_MAX then s.abort_count i + 1
            else s.abort_count i
  let r := rand_r (s.seed i)
  let cycles_to_wait := r.2 % (ac * WAIT_CYCLES_MULTIPLICATOR)
  ({ s with abort_count := upd s.abort_count i ac,
            seed := upd s.seed i r.1 }, cycles_to_wait)

/-- Number of entries in each static per-thread array
(`uint128_t aborted[128]` and its siblings). -/
def cm_array_size : Int := 128

/-- The array index every `ContentionManager` operation computes from the
transaction's thread id (`threadid *= 4`), over the C `int` type. -/
def cm_index (threadid : Int) : Int := 4 * threadid

/-- The computed index denotes a valid entry of a 128-entry array. -/
def cm_index_in_bounds (threadid : Int) : Prop :=
  0 ≤ cm_index threadid ∧ cm_index threadid < cm_array_size

end ContentionManager

/-- Repeated `on_write` calls by one thread within one attempt. -/
def on_write_iter (s : CMState) (tid : Nat) : Nat → CMState :=
  fun n => (fun t => ContentionManager.on_write t tid)^[n] s

/-! ## Version words (`EagerVersions.hh`)

The CAS loops of `TLockVersion` are embedded one loop iteration at a
time: each function takes the word value `vv` read at the top of the body
and a `casOk : Bool` giving the outcome of the `bool_cmpxchg`, and returns
`none` exactly when the body falls through to `relax_fence()` and
retries.  C `assert`s are embedded by returning `none` from an
`Option`-valued function when the asserted condition fails.  All
operations are the `ADAPTIVE_RWLOCK == 0` build. -/

/-- Result enumeration `LockResponse` of `EagerVersions.hh`. -/
inductive LockResponse : Type where
  | locked
  | failed
  | optimistic
  | spin
deriving DecidableEq

namespace TLockVersion

/-- `TLockVersion::mask`, an alias of `TransactionTid::threadid_mask`:
in this variant the low field holds the reader count. -/
def mask : Nat := threadid_mask

/-- `TLockVersion::rlock_cnt_max = type(0x10)`: max number of readers. -/
def rlock_cnt_max : Nat := 0x10

/-- One iteration of the CAS loop in `TLockVersion::try_lock_read`:
spin if write-locked, fall back to optimistic if no reader slot is
available, otherwise CAS in an incremented reader count.  The result
carries the returned `(LockResponse, type)` pair and the word value after
the iteration. -/
def try_lock_read (vv : Nat) (casOk : Bool) :
    Option ((LockResponse × Nat) × Nat) :=
  let write_locked := (vv &&& lock_bit) ≠ 0
  let rlock_cnt := vv &&& mask
  let rlock_avail := rlock_cnt < rlock_cnt_max
  if write_locked then some ((LockResponse.spin, 0), vv)
  else if ¬ rlock_avail then some ((LockResponse.optimistic, vv), vv)
  else if casOk then
    some ((LockResponse.locked, 0), (vv &&& compl64 mask) ||| (rlock_cnt + 1))
  else none

/-- One iteration of the CAS loop in `TLockVersion::try_lock_write`:
spin if write-locked or any reader is present, otherwise CAS in the lock
bit.  The result carries the returned `LockResponse` and the word value
after the iteration. -/
def try_lock_write (vv : Nat) (casOk : Bool) :
    Option (LockResponse × Nat) :=
  let write_locked := (vv &&& lock_bit) ≠ 0
  let read_locked := (vv &&& mask) ≠ 0
  if write_locked ∨ read_locked then some (LockResponse.spin, vv)
  else if casOk then some (LockResponse.locked, vv ||| lock_bit)
  else none

/-- `TLockVersion::try_upgrade`: a single CAS attempt converting a sole
reader into a writer.  The two `assert`s (word not write-locked, at least
one reader) are the `none` cases. -/
def try_upgrade (vv : Nat) (casOk : Bool) :
    Option (LockResponse × Nat) :=
  let rlock_cnt := vv &&& mask
  if (vv &&& lock_bit) ≠ 0 then none
  else if rlock_cnt < 1 then none
  else if rlock_cnt = 1 ∧ casOk then
    some (LockResponse.locked, (vv - 1) ||| lock_bit)
  else some (LockResponse.spin, vv)

/-- `TLockVersion::unlock_read` (`ADAPTIVE_RWLOCK == 0`):
`__sync_fetch_and_add(&v_, -1)`, an unsigned 64-bit addition of `-1`;
the `assert` that the old value had at least one reader is the `none`
case. -/
def unlock_read (v : Nat) : Option Nat :=
  if 1 ≤ v &&& mask then some ((v + WORD_MASK) % 2 ^ 64) else none

/-- `TLockVersion::unlock_write` (`ADAPTIVE_RWLOCK == 0`): clear the lock
bit; the `assert(is_locked())` is the `none` case. -/
def unlock_write (v : Nat) : Option Nat :=
  if (v &&& lock_bit) ≠ 0 then some (v &&& compl64 lock_bit) else none

/-- Mutual exclusion of the pessimistic word: the reader count is zero
while the lock bit is set (and hence vice versa), the count never exceeds
`rlock_cnt_max`, and the word fits in 64 bits. -/
def Inv (v : Nat) : Prop :=
  ((v &&& lock_bit) ≠ 0 → v &&& mask = 0) ∧
  v &&& mask ≤ rlock_cnt_max ∧
  v < 2 ^ 64

/-- Word values reachable from a starting value through the four
operations `try_lock_read`, `try_lock_write`, `unlock_read` and
`unlock_write`: any CAS iteration with either outcome, and the unlocks
subject to their asserts. -/
inductive Reach : Nat → Nat → Prop where
  | refl (v : Nat) : Reach v v
  | lock_read (a b : Nat) (c : Bool) (r : LockResponse × Nat) (w : Nat) :
      Reach a b → try_lock_read b c = some (r, w) → Reach a w
  | lock_write (a b : Nat) (c : Bool) (r : LockResponse) (w : Nat) :
      Reach a b → try_lock_write b c = some (r, w) → Reach a w
  | read_release (a b w : Nat) :
      Reach a b → unlock_read b = some w → Reach a w
  | write_release (a b w : Nat) :
      Reach a b → unlock_write b = some w → Reach a w

end TLockVersion

namespace TransactionTid

/-- Modelled from the spec: `TransactionTid::is_locked` /
`BasicVersion::is_locked` from the absent headers — the lock bit is set
iff a writer currently owns the object. -/
def is_locked (v : Nat) : Bool := (v &&& lock_bit) != 0

/-- Modelled from the spec: `BasicVersion::is_locked_here(threadid)` from
the absent `VersionBase.hh` — the word is locked and its owner/thread-id
field identifies the given thread. -/
def is_locked_here (v : Nat) (threadid : Nat) : Bool :=
  is_locked v && (v &&& threadid_mask == threadid)

/-- Modelled from the spec: `TransactionTid::unlock` from the absent
header — release ownership by clearing the lock bit, the
dirty/commit-in-progress bit and the owner/thread-id field, leaving the
version bits alone. -/
def unlock (v : Nat) : Nat :=
  v &&& compl64 (lock_bit ||| dirty_bit ||| threadid_mask)

end TransactionTid

namespace TSwissVersion

/-- `TSwissVersion::read_lock_bit = TransactionTid::dirty_bit`. -/
def read_lock_bit : Nat := dirty_bit

/-- `TSwissVersion::cp_try_lock_impl(threadid)`: assert the calling
thread already holds the lock (the `none` case), then set the
dirty/commit-in-progress bit and return `true`. -/
def cp_try_lock_impl (v : Nat) (threadid : Nat) : Option (Bool × Nat) :=
  if TransactionTid.is_locked_here v threadid then
    some (true, v ||| read_lock_bit)
  else none

/-- `TSwissVersion::cp_unlock_impl(item)`: if the word is locked, release
it via `TransactionTid::unlock`; the guard tests only the lock bit. -/
def cp_unlock_impl (v : Nat) : Nat :=
  if TransactionTid.is_locked v then TransactionTid.unlock v else v

end TSwissVersion


/-! ## Theorems for the contention-manager claims -/

/-- Claim C1: `ContentionManager::start(tx)` resets the calling thread's
`write_set_size` to 0, its `timestamp` to the `MAX_TS` sentinel and its
`aborted` flag to 0, and resets `abort_count` to 0 exactly when the
transaction is not a restart, preserving it unchanged on a restart. -/
theorem claim_C1_start_resets (s : CMState) (tid : Nat) (is_restarted : Bool) :
    (ContentionManager.start s tid is_restarted).write_set_size (4 * tid) = 0 ∧
    (ContentionManager.start s tid is_restarted).timestamp (4 * tid) = MAX_TS ∧
    (ContentionManager.start s tid is_restarted).aborted (4 * tid) = 0 ∧
    (ContentionManager.start s tid is_restarted).abort_count (4 * tid) =
      (if is_restarted then s.abort_count (4 * tid) else 0) := by
  cases is_restarted <;> simp [ContentionManager.start, upd]

/-- Each `on_write` call increments the caller's write-set size, so after
`n` calls it has grown by exactly `n`. -/
lemma on_write_iter_wss (s : CMState) (tid : Nat) (n : Nat) :
    (on_write_iter s tid n).write_set_size (4 * tid) =
      s.write_set_size (4 * tid) + n := by
  induction n with
  | zero => simp [on_write_iter]
  | succ n ih =>
      have hstep : on_write_iter s tid (n + 1) =
          ContentionManager.on_write (on_write_iter s tid n) tid := by
        simp [on_write_iter, Function.iterate_succ_apply']
      rw [hstep]
      simp only [ContentionManager.on_write]
      split <;> simp [upd, ih] <;> omega

/-- Claim C5: `on_write` increments the caller's `write_set_size` by one
and assigns a priority timestamp — the old value of the global counter,
which is simultaneously incremented (fetch-and-add) — exactly when the
thread's timestamp is still the `MAX_TS` sentinel and the write-set size
has just reached the threshold; on every other call both the thread's
timestamp and the global counter are unchanged, and across the iterated
calls of one attempt the assignment condition holds at most once. -/
theorem claim_C5_on_write (s : CMState) (tid : Nat) :
    (ContentionManager.on_write s tid).write_set_size (4 * tid) =
        s.write_set_size (4 * tid) + 1 ∧
    ((s.timestamp (4 * tid) = MAX_TS ∧
        s.write_set_size (4 * tid) + 1 = TS_THRESHOLD) →
      (ContentionManager.on_write s tid).timestamp (4 * tid) = s.ts ∧
      (ContentionManager.on_write s tid).ts = s.ts + 1) ∧
    (¬ (s.timestamp (4 * tid) = MAX_TS ∧
        s.write_set_size (4 * tid) + 1 = TS_THRESHOLD) →
      (ContentionManager.on_write s tid).timestamp (4 * tid) =
          s.timestamp (4 * tid) ∧
      (ContentionManager.on_write s tid).ts = s.ts) ∧
    (∀ j k : Nat,
      ((on_write_iter s tid j).timestamp (4 * tid) = MAX_TS ∧
        (on_write_iter s tid j).write_set_size (4 * tid) + 1 = TS_THRESHOLD) →
      ((on_write_iter s tid k).timestamp (4 * tid) = MAX_TS ∧
        (on_write_iter s tid k).write_set_size (4 * tid) + 1 = TS_THRESHOLD) →
      j = k) := by
  refine ⟨?_, ?_, ?_, ?_⟩
  · simp only [ContentionManager.on_write]
    split <;> simp [upd]
  · intro hc
    simp only [ContentionManager.on_write]
    split <;> simp_all [upd]
  · intro hc
    simp only [ContentionManager.on_write]
    split <;> simp_all [upd]
  · intro j k hj hk
    have h1 := on_write_iter_wss s tid j
    have h2 := on_write_iter_wss s tid k
    omega

/-- Claim C6: `on_rollback` increments the caller's `abort_count` unless
it has reached `SUCC_ABORTS_MAX` (so it is non-decreasing and saturates at
the cap), draws the wait duration from the caller's own PRNG seed (which
it advances), and that duration is strictly below the new abort count
times `WAIT_CYCLES_MULTIPLICATOR`. -/
theorem claim_C6_on_rollback (s : CMState) (tid : Nat) :
    (ContentionManager.on_rollback s tid).1.abort_count (4 * tid) =
        (if s.abort_count (4 * tid) < SUCC_ABORTS_MAX then
          s.abort_count (4 * tid) + 1 else s.abort_count (4 * tid)) ∧
    s.abort_count (4 * tid) ≤
        (ContentionManager.on_rollback s tid).1.abort_count (4 * tid) ∧
    (s.abort_count (4 * tid) ≤ SUCC_ABORTS_MAX →
      (ContentionManager.on_rollback s tid).1.abort_count (4 * tid) ≤
        SUCC_ABORTS_MAX) ∧
    (ContentionManager.on_rollback s tid).2 =
        (rand_r (s.seed (4 * tid))).2 %
          ((ContentionManager.on_rollback s tid).1.abort_count (4 * tid) *
            WAIT_CYCLES_MULTIPLICATOR) ∧
    (ContentionManager.on_rollback s tid).1.seed (4 * tid) =
        (rand_r (s.seed (4 * tid))).1 ∧
    (ContentionManager.on_rollback s tid).2 <
        (ContentionManager.on_rollback s tid).1.abort_count (4 * tid) *
          WAIT_CYCLES_MULTIPLICATOR := by
  have hpos : 0 <
      (ContentionManager.on_rollback s tid).1.abort_count (4 * tid) *
        WAIT_CYCLES_MULTIPLICATOR := by
    simp only [ContentionManager.on_rollback, WAIT_CYCLES_MULTIPLICATOR,
      SUCC_ABORTS_MAX]
    split <;> simp [upd] <;> omega
  refine ⟨?_, ?_, ?_, ?_, ?_, ?_⟩
  · simp only [ContentionManager.on_rollback]
    split <;> simp_all [upd]
  · simp only [ContentionManager.on_rollback]
    split <;> simp_all [upd]
  · intro h
    simp only [ContentionManager.on_rollback] at hpos ⊢
    split <;> simp_all [upd] <;> omega
  · simp only [ContentionManager.on_rollback]
    split <;> simp [upd]
  · simp [ContentionManager.on_rollback, upd]
  · simp only [ContentionManager.on_rollback] at hpos ⊢
    simp only [upd] at hpos ⊢
    simp at hpos ⊢
    exact Nat.mod_lt _ hpos

/-! ## Bit-level toolkit -/

/-- Bits at or above the width of a word are clear. -/
lemma testBit_high_false {v n i : Nat} (hv : v < 2 ^ n) (hi : n ≤ i) :
    v.testBit i = false :=
  Nat.testBit_lt_two_pow
    (lt_of_lt_of_le hv (Nat.pow_le_pow_right (by norm_num) hi))

/-- The low reader-count/thread-id field is the remainder mod 32. -/
lemma and_threadid_mask_eq_mod (v : Nat) : v &&& threadid_mask = v % 32 := by
  have h : threadid_mask = 2 ^ 5 - 1 := by norm_num [threadid_mask]
  rw [h, Nat.and_pow_two_sub_one_eq_mod]

/-- Testing a word against a single bit is testing that bit. -/
lemma and_two_pow_eq_zero_iff (v i : Nat) :
    v &&& 2 ^ i = 0 ↔ v.testBit i = false := by
  constructor
  · intro h
    have := congrArg (fun x => x.testBit i) h
    simpa [Nat.testBit_and, Nat.testBit_two_pow] using this
  · intro h
    apply Nat.eq_of_testBit_eq
    intro j
    rw [Nat.testBit_and, Nat.testBit_two_pow, Nat.zero_testBit]
    by_cases hj : i = j
    · subst hj; simp [h]
    · simp [hj]

/-- Bit description of the 64-bit complement of a constant. -/
lemma testBit_compl64 (m i : Nat) :
    (compl64 m).testBit i = (decide (i < 64)).xor (m.testBit i) := by
  have h : WORD_MASK.testBit i = decide (i < 64) := by
    rw [show WORD_MASK = 2 ^ 64 - 1 from rfl, Nat.testBit_two_pow_sub_one]
  rw [compl64, Nat.testBit_xor, h]

/-- Clearing the low `k`-bit field of a 64-bit word rounds it down to a
multiple of `2 ^ k`. -/
lemma and_compl64_pow_sub_one (v k : Nat) (hk : k ≤ 64) (hv : v < 2 ^ 64) :
    v &&& compl64 (2 ^ k - 1) = 2 ^ k * (v / 2 ^ k) := by
  apply Nat.eq_of_testBit_eq
  intro i
  rw [Nat.testBit_and, testBit_compl64, Nat.testBit_mul_pow_two]
  rcases lt_or_le i k with hik | hik
  · simp [Nat.testBit_two_pow_sub_one, hik, Nat.lt_of_lt_of_le hik hk,
      Nat.not_le_of_lt hik]
  · rcases lt_or_le i 64 with hi64 | hi64
    · have : (v / 2 ^ k).testBit (i - k) = v.testBit i := by
        rw [← Nat.shiftRight_eq_div_pow, Nat.testBit_shiftRight,
          Nat.add_sub_cancel' hik]
      simp [Nat.testBit_two_pow_sub_one, hik, hi64, Nat.not_lt_of_le hik, this]
    · have h1 : v.testBit i = false := testBit_high_false hv hi64
      have h2 : (v / 2 ^ k).testBit (i - k) = false := by
        have hd : v / 2 ^ k < 2 ^ (64 - k) := by
          apply Nat.div_lt_of_lt_mul
          calc v < 2 ^ 64 := hv
            _ = 2 ^ k * 2 ^ (64 - k) := by rw [← pow_add]; congr 1; omega
        exact testBit_high_false hd (by omega)
      simp [h1, h2, hik, Nat.not_lt_of_le (le_trans hk hi64),
        Nat.not_lt_of_le hi64]

/-- Bit description of masking a 64-bit word with a complemented
constant. -/
lemma testBit_and_compl64 (v m i : Nat) (hv : v < 2 ^ 64) :
    (v &&& compl64 m).testBit i = (v.testBit i && !m.testBit i) := by
  rw [Nat.testBit_and, testBit_compl64]
  rcases lt_or_le i 64 with h | h
  · simp [h]
  · simp [testBit_high_false hv h, Nat.not_lt_of_le h]

/-! ## Theorems for the version-word claims -/

/-- Claim C8: in the `ADAPTIVE_RWLOCK == 0` build, on a write-locked word
`TLockVersion::unlock_write` clears exactly the lock bit: the resulting
word has the lock bit clear and every other bit — in particular the
reader-count field and the optimistic-hint bit, hence also all
version/sequence bits — identical to the old word. -/
theorem claim_C8_unlock_write (v : Nat) (hv : v < 2 ^ 64)
    (hl : (v &&& lock_bit) ≠ 0) :
    ∃ w, TLockVersion.unlock_write v = some w ∧
      w.testBit 5 = false ∧
      (∀ i, i ≠ 5 → w.testBit i = v.testBit i) ∧
      w &&& threadid_mask = v &&& threadid_mask ∧
      w &&& opt_bit = v &&& opt_bit := by
  refine ⟨v &&& compl64 lock_bit, ?_, ?_, ?_, ?_, ?_⟩
  · simp [TLockVersion.unlock_write, hl]
  · rw [testBit_and_compl64 v lock_bit 5 hv]
    have h : lock_bit.testBit 5 = true := by decide
    simp [h]
  · intro i hi
    rw [testBit_and_compl64 v lock_bit i hv]
    have h : lock_bit = 2 ^ 5 := by norm_num [lock_bit]
    rw [h, Nat.testBit_two_pow]
    have h5 : decide (5 = i) = false := decide_eq_false (fun e => hi e.symm)
    rw [h5]
    simp
  · rw [Nat.and_assoc]
    have h : compl64 lock_bit &&& threadid_mask = threadid_mask := by decide
    rw [h]
  · rw [Nat.and_assoc]
    have h : compl64 lock_bit &&& opt_bit = opt_bit := by decide
    rw [h]

/-- Claim C8 witness: a concrete locked word. -/
theorem claim_C8_unlock_write_witness :
    (0x163 : Nat) < 2 ^ 64 ∧ ((0x163 : Nat) &&& lock_bit) ≠ 0 ∧
    ∃ w, TLockVersion.unlock_write 0x163 = some w ∧
      w.testBit 5 = false ∧
      (∀ i, i ≠ 5 → w.testBit i = (0x163 : Nat).testBit i) ∧
      w &&& threadid_mask = (0x163 : Nat) &&& threadid_mask ∧
      w &&& opt_bit = (0x163 : Nat) &&& opt_bit :=
  ⟨by norm_num, by decide,
    claim_C8_unlock_write 0x163 (by norm_num) (by decide)⟩

/-- Claim C7: when the calling thread already holds the lock on an
optimistic word, `TSwissVersion::cp_try_lock_impl` passes its assertion
(the `none` branch is unreachable), sets the dirty/commit-in-progress bit
and returns `true`, leaving the lock bit, the owner field and every bit
other than the dirty bit unchanged — so the word is still locked by the
same thread afterwards. -/
theorem claim_C7_cp_try_lock (v tid : Nat)
    (h : TransactionTid.is_locked_here v tid = true) :
    ∃ w, TSwissVersion.cp_try_lock_impl v tid = some (true, w) ∧
      w.testBit 7 = true ∧
      (∀ i, i ≠ 7 → w.testBit i = v.testBit i) ∧
      w &&& lock_bit = v &&& lock_bit ∧
      w &&& threadid_mask = v &&& threadid_mask ∧
      TransactionTid.is_locked_here w tid = true := by
  have hlock : (v ||| TSwissVersion.read_lock_bit) &&& lock_bit =
      v &&& lock_bit := by
    rw [Nat.and_distrib_right]
    have h2 : TSwissVersion.read_lock_bit &&& lock_bit = 0 := by decide
    rw [h2, Nat.or_zero]
  have hmask : (v ||| TSwissVersion.read_lock_bit) &&& threadid_mask =
      v &&& threadid_mask := by
    rw [Nat.and_distrib_right]
    have h2 : TSwissVersion.read_lock_bit &&& threadid_mask = 0 := by decide
    rw [h2, Nat.or_zero]
  refine ⟨v ||| TSwissVersion.read_lock_bit, ?_, ?_, ?_, hlock, hmask, ?_⟩
  · simp [TSwissVersion.cp_try_lock_impl, h]
  · have h7 : TSwissVersion.read_lock_bit.testBit 7 = true := by decide
    simp [Nat.testBit_or, h7]
  · intro i hi
    have h7 : TSwissVersion.read_lock_bit = 2 ^ 7 := by
      norm_num [TSwissVersion.read_lock_bit, dirty_bit]
    rw [Nat.testBit_or, h7, Nat.testBit_two_pow]
    have h5 : decide (7 = i) = false := decide_eq_false (fun e => hi e.symm)
    rw [h5]
    simp
  · unfold TransactionTid.is_locked_here TransactionTid.is_locked at h ⊢
    rw [hlock, hmask]
    exact h

/-- Claim C7 witness: a word locked by thread 3, caller thread 3. -/
theorem claim_C7_cp_try_lock_witness :
    TransactionTid.is_locked_here 0x263 3 = true ∧
    ∃ w, TSwissVersion.cp_try_lock_impl 0x263 3 = some (true, w) ∧
      w.testBit 7 = true ∧
      (∀ i, i ≠ 7 → w.testBit i = (0x263 : Nat).testBit i) ∧
      w &&& lock_bit = (0x263 : Nat) &&& lock_bit ∧
      w &&& threadid_mask = (0x263 : Nat) &&& threadid_mask ∧
      TransactionTid.is_locked_here w 3 = true :=
  ⟨by decide, claim_C7_cp_try_lock 0x263 3 (by decide)⟩

/-- The reader count of a pessimistic word is its remainder mod 32. -/
lemma and_mask_eq_mod (v : Nat) : v &&& TLockVersion.mask = v % 32 :=
  and_threadid_mask_eq_mod v

/-- The word installed by a successful `try_lock_read` CAS carries the
incremented reader count in its low field. -/
lemma tlr_new_word_mask (vv : Nat)
    (hcnt : (vv &&& TLockVersion.mask) + 1 < 2 ^ 5) :
    ((vv &&& compl64 TLockVersion.mask) ||| ((vv &&& TLockVersion.mask) + 1))
        &&& TLockVersion.mask = (vv &&& TLockVersion.mask) + 1 := by
  rw [Nat.and_distrib_right, Nat.and_assoc]
  have e1 : compl64 TLockVersion.mask &&& TLockVersion.mask = 0 := by decide
  have e2 : ((vv &&& TLockVersion.mask) + 1) &&& TLockVersion.mask =
      (vv &&& TLockVersion.mask) + 1 := by
    have h5 : TLockVersion.mask = 2 ^ 5 - 1 := by decide
    rw [h5]
    exact Nat.and_pow_two_sub_one_of_lt_two_pow hcnt
  rw [e1, Nat.and_zero, e2, Nat.zero_or]

/-- The word installed by a successful `try_lock_read` CAS agrees with
the old word on every bit above the reader-count field. -/
lemma tlr_new_word_high (vv i : Nat) (hv : vv < 2 ^ 64)
    (hcnt : (vv &&& TLockVersion.mask) + 1 < 2 ^ 5) (hi : 5 ≤ i) :
    Nat.testBit
      ((vv &&& compl64 TLockVersion.mask) ||| ((vv &&& TLockVersion.mask) + 1))
      i = vv.testBit i := by
  rw [Nat.testBit_or, testBit_and_compl64 vv _ i hv]
  have e3 : TLockVersion.mask.testBit i = false :=
    testBit_high_false (n := 5) (by decide) hi
  have e4 : ((vv &&& TLockVersion.mask) + 1).testBit i = false :=
    testBit_high_false hcnt hi
  simp [e3, e4]

/-- Claim C3: one iteration of `TLockVersion::try_lock_read` returns
`spin` when the word is write-locked; otherwise `optimistic` when no
reader slot is left (the count is at the maximum); otherwise, once the
CAS succeeds, it returns `locked` and the new word is the old word with
the reader count incremented by one and every other bit unchanged; a
failed CAS makes the loop retry. -/
theorem claim_C3_try_lock_read (vv : Nat) (casOk : Bool) (hv : vv < 2 ^ 64) :
    ((vv &&& lock_bit) ≠ 0 →
      TLockVersion.try_lock_read vv casOk =
        some ((LockResponse.spin, 0), vv)) ∧
    ((vv &&& lock_bit) = 0 →
      TLockVersion.rlock_cnt_max ≤ vv &&& TLockVersion.mask →
      TLockVersion.try_lock_read vv casOk =
        some ((LockResponse.optimistic, vv), vv)) ∧
    ((vv &&& lock_bit) = 0 →
      vv &&& TLockVersion.mask < TLockVersion.rlock_cnt_max →
      casOk = true →
      ∃ w, TLockVersion.try_lock_read vv casOk =
          some ((LockResponse.locked, 0), w) ∧
        w &&& TLockVersion.mask = (vv &&& TLockVersion.mask) + 1 ∧
        (∀ i, 5 ≤ i → w.testBit i = vv.testBit i)) ∧
    ((vv &&& lock_bit) = 0 →
      vv &&& TLockVersion.mask < TLockVersion.rlock_cnt_max →
      casOk = false → TLockVersion.try_lock_read vv casOk = none) := by
  refine ⟨?_, ?_, ?_, ?_⟩
  · intro h1
    simp only [TLockVersion.try_lock_read]
    rw [if_pos h1]
  · intro h1 h2
    simp only [TLockVersion.try_lock_read]
    rw [if_neg (fun h => h h1), if_pos (Nat.not_lt.mpr h2)]
  · intro h1 h2 hc
    subst hc
    have hcnt : (vv &&& TLockVersion.mask) + 1 < 2 ^ 5 := by
      have h16 : TLockVersion.rlock_cnt_max = 16 := by decide
      have h32 : (2 : Nat) ^ 5 = 32 := by norm_num
      rw [h16] at h2
      omega
    refine ⟨(vv &&& compl64 TLockVersion.mask) |||
        ((vv &&& TLockVersion.mask) + 1), ?_, ?_, ?_⟩
    · simp only [TLockVersion.try_lock_read]
      rw [if_neg (fun h => h h1), if_neg (by simp [h2]), if_pos trivial]
    · exact tlr_new_word_mask vv hcnt
    · exact fun i hi => tlr_new_word_high vv i hv hcnt hi
  · intro h1 h2 hc
    subst hc
    simp only [TLockVersion.try_lock_read]
    rw [if_neg (fun h => h h1), if_neg (by simp [h2]), if_neg (by simp)]

/-- Claim C3 witness: an unlocked word with two readers and a version bit
set, with a successful CAS. -/
theorem claim_C3_try_lock_read_witness :
    (0x42 : Nat) < 2 ^ 64 ∧
    ((((0x42 : Nat) &&& lock_bit) ≠ 0 →
      TLockVersion.try_lock_read 0x42 true =
        some ((LockResponse.spin, 0), 0x42)) ∧
    (((0x42 : Nat) &&& lock_bit) = 0 →
      TLockVersion.rlock_cnt_max ≤ (0x42 : Nat) &&& TLockVersion.mask →
      TLockVersion.try_lock_read 0x42 true =
        some ((LockResponse.optimistic, 0x42), 0x42)) ∧
    (((0x42 : Nat) &&& lock_bit) = 0 →
      (0x42 : Nat) &&& TLockVersion.mask < TLockVersion.rlock_cnt_max →
      true = true →
      ∃ w, TLockVersion.try_lock_read 0x42 true =
          some ((LockResponse.locked, 0), w) ∧
        w &&& TLockVersion.mask = ((0x42 : Nat) &&& TLockVersion.mask) + 1 ∧
        (∀ i, 5 ≤ i → w.testBit i = (0x42 : Nat).testBit i)) ∧
    (((0x42 : Nat) &&& lock_bit) = 0 →
      (0x42 : Nat) &&& TLockVersion.mask < TLockVersion.rlock_cnt_max →
      true = false → TLockVersion.try_lock_read 0x42 true = none)) :=
  ⟨by norm_num, claim_C3_try_lock_read 0x42 true (by norm_num)⟩

/-- Claim C9: on a word that is not write-locked and carries at least one
reader (the two assertions of `TLockVersion::try_upgrade`), the single
CAS attempt returns `locked` exactly when the reader count is 1 and the
CAS succeeds, producing a word with the lock bit set, reader count zero
and every other bit unchanged; in every other case it returns `spin` with
the word untouched. -/
theorem claim_C9_try_upgrade (vv : Nat) (casOk : Bool) (hv : vv < 2 ^ 64)
    (hnl : (vv &&& lock_bit) = 0) (hr : 1 ≤ vv &&& TLockVersion.mask) :
    (vv &&& TLockVersion.mask = 1 → casOk = true →
      ∃ w, TLockVersion.try_upgrade vv casOk =
          some (LockResponse.locked, w) ∧
        w &&& TLockVersion.mask = 0 ∧
        w.testBit 5 = true ∧
        (∀ i, 6 ≤ i → w.testBit i = vv.testBit i)) ∧
    (¬ (vv &&& TLockVersion.mask = 1 ∧ casOk = true) →
      TLockVersion.try_upgrade vv casOk =
        some (LockResponse.spin, vv)) := by
  constructor
  · intro h1 hc
    subst hc
    have hmod : vv % 32 = 1 := by rw [← and_mask_eq_mod]; exact h1
    have h32 : (2 : Nat) ^ 5 = 32 := by norm_num
    have e1 : vv - 1 = 2 ^ 5 * (vv / 32) := by rw [h32]; omega
    have e2 : vv = 2 ^ 5 * (vv / 32) + 1 := by rw [h32]; omega
    refine ⟨(vv - 1) ||| lock_bit, ?_, ?_, ?_, ?_⟩
    · simp only [TLockVersion.try_upgrade]
      rw [if_neg (fun h => h hnl), if_neg (Nat.not_lt.mpr hr),
        if_pos ⟨h1, trivial⟩]
    · rw [Nat.and_distrib_right]
      have f1 : (vv - 1) &&& TLockVersion.mask = 0 := by
        rw [and_mask_eq_mod, e1, h32, Nat.mul_mod_right]
      have f2 : lock_bit &&& TLockVersion.mask = 0 := by decide
      rw [f1, f2]
      simp
    · rw [Nat.testBit_or]
      have f3 : lock_bit.testBit 5 = true := by decide
      simp [f3]
    · intro i hi
      have hlb : lock_bit.testBit i = false :=
        testBit_high_false (n := 6) (by decide) hi
      have hleft : ((vv - 1) ||| lock_bit).testBit i =
          (vv / 32).testBit (i - 5) := by
        rw [Nat.testBit_or, e1, Nat.testBit_mul_pow_two, hlb]
        simp [Nat.le_of_succ_le hi]
      have hright : vv.testBit i = (vv / 32).testBit (i - 5) := by
        conv_lhs => rw [e2]
        rw [Nat.testBit_mul_pow_two_add _ (by norm_num) i, if_neg (by omega)]
      rw [hleft, hright]
  · intro hn
    simp only [TLockVersion.try_upgrade]
    rw [if_neg (fun h => h hnl), if_neg (Nat.not_lt.mpr hr), if_neg hn]

/-- Claim C9 witness: an unlocked word with exactly one reader and a
version bit set, with a successful CAS. -/
theorem claim_C9_try_upgrade_witness :
    (0x41 : Nat) < 2 ^ 64 ∧ ((0x41 : Nat) &&& lock_bit) = 0 ∧
    1 ≤ (0x41 : Nat) &&& TLockVersion.mask ∧
    (((0x41 : Nat) &&& TLockVersion.mask = 1 → true = true →
      ∃ w, TLockVersion.try_upgrade 0x41 true =
          some (LockResponse.locked, w) ∧
        w &&& TLockVersion.mask = 0 ∧
        w.testBit 5 = true ∧
        (∀ i, 6 ≤ i → w.testBit i = (0x41 : Nat).testBit i)) ∧
    (¬ ((0x41 : Nat) &&& TLockVersion.mask = 1 ∧ true = true) →
      TLockVersion.try_upgrade 0x41 true =
        some (LockResponse.spin, 0x41))) :=
  ⟨by norm_num, by decide, by decide,
    claim_C9_try_upgrade 0x41 true (by norm_num) (by decide) (by decide)⟩

/-- Claim C2 counterexample: the guard of `TSwissVersion::cp_unlock_impl`
is `BV::is_locked()`, which tests only the lock bit; on the word `0x22` —
locked with owner field 2, so locked by a thread other than caller 1 —
the claim demands the word be left unchanged, yet the code releases it. -/
theorem claim_C2_counterexample :
    TransactionTid.is_locked 0x22 = true ∧
    TransactionTid.is_locked_here 0x22 1 = false ∧
    TSwissVersion.cp_unlock_impl 0x22 ≠ 0x22 := by decide

/-- Claim C2 as amended: `TSwissVersion::cp_unlock_impl` clears the lock
bit, the dirty bit and the owner field whenever the word is locked — by
any thread, since the guard checks only the lock bit — leaving all other
bits (the opacity marker and the version bits) unchanged, and leaves the
word unchanged exactly when it is not locked at all. -/
theorem claim_C2_cp_unlock (v : Nat) (hv : v < 2 ^ 64) :
    (TransactionTid.is_locked v = true →
      TSwissVersion.cp_unlock_impl v = TransactionTid.unlock v ∧
      (TSwissVersion.cp_unlock_impl v).testBit 5 = false ∧
      (TSwissVersion.cp_unlock_impl v).testBit 7 = false ∧
      TSwissVersion.cp_unlock_impl v &&& threadid_mask = 0 ∧
      (TSwissVersion.cp_unlock_impl v).testBit 6 = v.testBit 6 ∧
      (∀ i, 8 ≤ i → (TSwissVersion.cp_unlock_impl v).testBit i =
        v.testBit i)) ∧
    (TransactionTid.is_locked v = false →
      TSwissVersion.cp_unlock_impl v = v) := by
  constructor
  · intro hl
    have he : TSwissVersion.cp_unlock_impl v = TransactionTid.unlock v := by
      simp [TSwissVersion.cp_unlock_impl, hl]
    rw [he]
    have hbit : ∀ i, (TransactionTid.unlock v).testBit i =
        (v.testBit i && !(lock_bit ||| dirty_bit ||| threadid_mask).testBit i) :=
      fun i => testBit_and_compl64 v _ i hv
    refine ⟨rfl, ?_, ?_, ?_, ?_, ?_⟩
    · rw [hbit 5]
      have h : (lock_bit ||| dirty_bit ||| threadid_mask).testBit 5 = true := by
        decide
      simp [h]
    · rw [hbit 7]
      have h : (lock_bit ||| dirty_bit ||| threadid_mask).testBit 7 = true := by
        decide
      simp [h]
    · rw [TransactionTid.unlock, Nat.and_assoc]
      have h : compl64 (lock_bit ||| dirty_bit ||| threadid_mask) &&&
          threadid_mask = 0 := by decide
      rw [h, Nat.and_zero]
    · rw [hbit 6]
      have h : (lock_bit ||| dirty_bit ||| threadid_mask).testBit 6 = false := by
        decide
      simp [h]
    · intro i hi
      rw [hbit i]
      have h : (lock_bit ||| dirty_bit ||| threadid_mask).testBit i = false := by
        refine testBit_high_false (n := 8) (by decide) hi
      simp [h]
  · intro hl
    simp [TSwissVersion.cp_unlock_impl, hl]

/-- Claim C2 witness for the amended claim: a concrete word locked by
thread 2 with the opacity bit and a version bit set. -/
theorem claim_C2_cp_unlock_witness :
    (0x162 : Nat) < 2 ^ 64 ∧
    ((TransactionTid.is_locked 0x162 = true →
      TSwissVersion.cp_unlock_impl 0x162 = TransactionTid.unlock 0x162 ∧
      (TSwissVersion.cp_unlock_impl 0x162).testBit 5 = false ∧
      (TSwissVersion.cp_unlock_impl 0x162).testBit 7 = false ∧
      TSwissVersion.cp_unlock_impl 0x162 &&& threadid_mask = 0 ∧
      (TSwissVersion.cp_unlock_impl 0x162).testBit 6 = (0x162 : Nat).testBit 6 ∧
      (∀ i, 8 ≤ i → (TSwissVersion.cp_unlock_impl 0x162).testBit i =
        (0x162 : Nat).testBit i)) ∧
    (TransactionTid.is_locked 0x162 = false →
      TSwissVersion.cp_unlock_impl 0x162 = 0x162)) :=
  ⟨by norm_num, claim_C2_cp_unlock 0x162 (by norm_num)⟩

/-- A word is free of the lock bit iff bit 5 is clear. -/
lemma and_lock_bit_eq_zero_iff_testBit (v : Nat) :
    v &&& lock_bit = 0 ↔ v.testBit 5 = false := by
  rw [show lock_bit = 2 ^ 5 by norm_num [lock_bit]]
  exact and_two_pow_eq_zero_iff v 5

/-- Arithmetic form of lock-bit freeness. -/
lemma and_lock_bit_eq_zero_iff_div (v : Nat) :
    v &&& lock_bit = 0 ↔ v / 32 % 2 = 0 := by
  rw [and_lock_bit_eq_zero_iff_testBit, Nat.testBit_to_div_mod,
    decide_eq_false_iff_not]
  have h32 : (2 : Nat) ^ 5 = 32 := by norm_num
  rw [h32]
  omega

/-- One `try_lock_read` iteration preserves the mutual-exclusion
invariant. -/
lemma Inv_lock_read (b : Nat) (c : Bool) (r : LockResponse × Nat) (w : Nat)
    (hb : TLockVersion.Inv b)
    (h : TLockVersion.try_lock_read b c = some (r, w)) :
    TLockVersion.Inv w := by
  obtain ⟨hbl, hbc, hbv⟩ := hb
  simp only [TLockVersion.try_lock_read] at h
  by_cases h1 : (b &&& lock_bit) ≠ 0
  · rw [if_pos h1] at h
    simp only [Option.some.injEq, Prod.mk.injEq] at h
    obtain ⟨-, hw⟩ := h
    subst hw
    exact ⟨hbl, hbc, hbv⟩
  · by_cases h2 : b &&& TLockVersion.mask < TLockVersion.rlock_cnt_max
    · rw [if_neg h1, if_neg (not_not_intro h2)] at h
      cases c with
      | false =>
          rw [if_neg (by simp)] at h
          exact absurd h (by simp)
      | true =>
          rw [if_pos rfl] at h
          simp only [Option.some.injEq, Prod.mk.injEq] at h
          obtain ⟨-, hw⟩ := h
          subst hw
          have hcnt : (b &&& TLockVersion.mask) + 1 < 2 ^ 5 := by
            have h16 : TLockVersion.rlock_cnt_max = 16 := by decide
            have h32 : (2 : Nat) ^ 5 = 32 := by norm_num
            rw [h16] at h2
            omega
          have hb0 : b &&& lock_bit = 0 := not_not.mp h1
          have hwv : (b &&& compl64 TLockVersion.mask) |||
              ((b &&& TLockVersion.mask) + 1) < 2 ^ 64 := by
            apply Nat.or_lt_two_pow
            · exact lt_of_le_of_lt Nat.and_le_left hbv
            · exact lt_trans hcnt (by norm_num)
          refine ⟨?_, ?_, hwv⟩
          · intro hcon
            have h5 : Nat.testBit ((b &&& compl64 TLockVersion.mask) |||
                ((b &&& TLockVersion.mask) + 1)) 5 = b.testBit 5 :=
              tlr_new_word_high b 5 hbv hcnt (le_refl 5)
            have hb5 : b.testBit 5 = false :=
              (and_lock_bit_eq_zero_iff_testBit b).mp hb0
            exact absurd ((and_lock_bit_eq_zero_iff_testBit _).mpr
              (h5.trans hb5)) hcon
          · rw [tlr_new_word_mask b hcnt]
            have h16 : TLockVersion.rlock_cnt_max = 16 := by decide
            rw [h16] at h2 ⊢
            omega
    · rw [if_neg h1, if_pos h2] at h
      simp only [Option.some.injEq, Prod.mk.injEq] at h
      obtain ⟨-, hw⟩ := h
      subst hw
      exact ⟨hbl, hbc, hbv⟩

/-- One `try_lock_write` iteration preserves the mutual-exclusion
invariant. -/
lemma Inv_lock_write (b : Nat) (c : Bool) (r : LockResponse) (w : Nat)
    (hb : TLockVersion.Inv b)
    (h : TLockVersion.try_lock_write b c = some (r, w)) :
    TLockVersion.Inv w := by
  obtain ⟨hbl, hbc, hbv⟩ := hb
  simp only [TLockVersion.try_lock_write] at h
  by_cases h1 : (b &&& lock_bit) ≠ 0 ∨ (b &&& TLockVersion.mask) ≠ 0
  · rw [if_pos h1] at h
    simp only [Option.some.injEq, Prod.mk.injEq] at h
    obtain ⟨-, hw⟩ := h
    subst hw
    exact ⟨hbl, hbc, hbv⟩
  · have h1c := h1
    push_neg at h1c
    obtain ⟨-, hm0⟩ := h1c
    rw [if_neg h1] at h
    cases c with
    | false =>
        rw [if_neg (by simp)] at h
        exact absurd h (by simp)
    | true =>
        rw [if_pos rfl] at h
        simp only [Option.some.injEq, Prod.mk.injEq] at h
        obtain ⟨-, hw⟩ := h
        subst hw
        have hmask : (b ||| lock_bit) &&& TLockVersion.mask = 0 := by
          rw [Nat.and_distrib_right, hm0]
          have he : lock_bit &&& TLockVersion.mask = 0 := by decide
          rw [he, Nat.or_zero]
        refine ⟨fun _ => hmask, ?_, ?_⟩
        · rw [hmask]
          exact Nat.zero_le _
        · exact Nat.or_lt_two_pow hbv (by norm_num [lock_bit])

/-- `unlock_read` preserves the mutual-exclusion invariant. -/
lemma Inv_read_release (b w : Nat) (hb : TLockVersion.Inv b)
    (h : TLockVersion.unlock_read b = some w) :
    TLockVersion.Inv w := by
  obtain ⟨hbl, hbc, hbv⟩ := hb
  simp only [TLockVersion.unlock_read] at h
  split_ifs at h with h1
  · simp only [Option.some.injEq] at h
    subst h
    rw [and_mask_eq_mod] at h1 hbc
    have hbl0 : b &&& lock_bit = 0 := by
      by_contra hc
      have := hbl hc
      rw [and_mask_eq_mod] at this
      omega
    rw [and_lock_bit_eq_zero_iff_div] at hbl0
    have h64 : (2 : Nat) ^ 64 = 18446744073709551616 := by norm_num
    have hwm : WORD_MASK = 18446744073709551615 := by norm_num [WORD_MASK]
    have hw : (b + WORD_MASK) % 2 ^ 64 = b - 1 := by
      rw [h64, hwm]
      omega
    rw [hw]
    refine ⟨?_, ?_, ?_⟩
    · intro hcon
      exfalso
      apply hcon
      rw [and_lock_bit_eq_zero_iff_div]
      omega
    · rw [and_mask_eq_mod]
      omega
    · omega

/-- `unlock_write` preserves the mutual-exclusion invariant. -/
lemma Inv_write_release (b w : Nat) (hb : TLockVersion.Inv b)
    (h : TLockVersion.unlock_write b = some w) :
    TLockVersion.Inv w := by
  obtain ⟨hbl, hbc, hbv⟩ := hb
  simp only [TLockVersion.unlock_write] at h
  split_ifs at h with h1
  · simp only [Option.some.injEq] at h
    subst h
    have hmask : (b &&& compl64 lock_bit) &&& TLockVersion.mask =
        b &&& TLockVersion.mask := by
      rw [Nat.and_assoc]
      have he : compl64 lock_bit &&& TLockVersion.mask =
          TLockVersion.mask := by decide
      rw [he]
    have hlk : (b &&& compl64 lock_bit) &&& lock_bit = 0 := by
      rw [Nat.and_assoc]
      have he : compl64 lock_bit &&& lock_bit = 0 := by decide
      rw [he, Nat.and_zero]
    refine ⟨fun hc => absurd hlk hc, ?_, ?_⟩
    · rw [hmask]
      exact hbc
    · exact lt_of_le_of_lt Nat.and_le_left hbv

/-- Claim C4: on every word reachable from an invariant-satisfying start
through `try_lock_read`, `try_lock_write`, `unlock_read` and
`unlock_write`, the lock bit and the reader count are mutually exclusive
and the reader count never exceeds `rlock_cnt_max`; moreover
`try_lock_write` answers `spin` (never `locked`) on any word that is
write-locked or carries readers, and `try_lock_read` answers `spin` on
any write-locked word. -/
theorem claim_C4_mutual_exclusion (v0 : Nat) (h0 : TLockVersion.Inv v0) :
    (∀ v, TLockVersion.Reach v0 v →
      ((v &&& lock_bit) ≠ 0 → v &&& TLockVersion.mask = 0) ∧
      ((v &&& TLockVersion.mask) ≠ 0 → v &&& lock_bit = 0) ∧
      v &&& TLockVersion.mask ≤ TLockVersion.rlock_cnt_max) ∧
    (∀ v c, (v &&& lock_bit) ≠ 0 ∨ (v &&& TLockVersion.mask) ≠ 0 →
      TLockVersion.try_lock_write v c = some (LockResponse.spin, v)) ∧
    (∀ v c, (v &&& lock_bit) ≠ 0 →
      TLockVersion.try_lock_read v c = some ((LockResponse.spin, 0), v)) := by
  refine ⟨?_, ?_, ?_⟩
  · intro v hreach
    have hinv : TLockVersion.Inv v := by
      induction hreach with
      | refl => exact h0
      | lock_read b c r w hr he ih => exact Inv_lock_read b c r w ih he
      | lock_write b c r w hr he ih => exact Inv_lock_write b c r w ih he
      | read_release b w hr he ih => exact Inv_read_release b w ih he
      | write_release b w hr he ih => exact Inv_write_release b w ih he
    obtain ⟨hl, hc, -⟩ := hinv
    refine ⟨hl, ?_, hc⟩
    intro hm
    by_contra hlk
    exact hm (hl hlk)
  · intro v c h
    simp only [TLockVersion.try_lock_write]
    rw [if_pos h]
  · intro v c h
    simp only [TLockVersion.try_lock_read]
    rw [if_pos h]

/-- Claim C4 witness: starting from the all-clear word. -/
theorem claim_C4_mutual_exclusion_witness :
    TLockVersion.Inv 0 ∧
    ((∀ v, TLockVersion.Reach 0 v →
      ((v &&& lock_bit) ≠ 0 → v &&& TLockVersion.mask = 0) ∧
      ((v &&& TLockVersion.mask) ≠ 0 → v &&& lock_bit = 0) ∧
      v &&& TLockVersion.mask ≤ TLockVersion.rlock_cnt_max) ∧
    (∀ v c, (v &&& lock_bit) ≠ 0 ∨ (v &&& TLockVersion.mask) ≠ 0 →
      TLockVersion.try_lock_write v c = some (LockResponse.spin, v)) ∧
    (∀ v c, (v &&& lock_bit) ≠ 0 →
      TLockVersion.try_lock_read v c =
        some ((LockResponse.spin, 0), v))) :=
  ⟨⟨by decide, by decide, by norm_num⟩,
    claim_C4_mutual_exclusion 0 ⟨by decide, by decide, by norm_num⟩⟩

/-- Claim C10: every `ContentionManager` operation accesses its 128-entry
per-thread arrays at index `4 * threadid`, which is in bounds iff the
thread id lies in `0..31`; any thread id of 32 or more indexes past the
end. -/
theorem claim_C10_index_bounds (threadid : Int) :
    ContentionManager.cm_index_in_bounds threadid ↔ 0 ≤ threadid ∧ threadid ≤ 31 := by
  unfold ContentionManager.cm_index_in_bounds ContentionManager.cm_index
    ContentionManager.cm_array_size
  omega

end STO
